import Mathlib

/-!
Verification of the TimesFM forecasting model
(`src/transformers/models/timesfm/modular_timesfm.py`).

The numeric values carried by tensors are modelled as exact rationals (`ℚ`);
the square root, logarithm and trigonometric functions applied at the very end
of some pipelines are modelled by their real counterparts (`Real.sqrt`,
`Real.log`, `Real.sin`, `Real.cos`, `Real.exp`).  Tensors are modelled as
(nested) lists, one list level per tensor axis, with the batch axis dropped
where every series of a batch is processed independently.
-/

namespace TimesFm

/-- Modelled from the spec: the configuration record (`configuration_timesfm.py`
is not part of the sources; §6 of the spec lists its fields).  Only the fields
read by the code under verification are kept.  `attn_implementation` models the
`_attn_implementation` attribute. -/
structure Config where
  patch_len : Nat
  context_len : Nat
  horizon_len : Nat
  num_heads : Nat
  num_key_value_heads : Nat
  min_timescale : ℚ
  max_timescale : ℚ
  model_dim : Nat
  quantiles : List ℚ
  tolerance : ℚ
  pad_val : ℚ
  attn_implementation : String
deriving DecidableEq

/-! ### Decode loop step count (`TimesFmModelForPrediction.forward`, lines 1060-1063)

`output_patch_len = self.config.horizon_len` and the loop bound is
`num_decode_patches = (self.horizon_len + output_patch_len - 1) // output_patch_len`;
`self.horizon_len` is the instance attribute (initialised from the config) and
`output_patch_len` the config field, so both are kept as parameters. -/

/-- Transcribes `num_decode_patches = (self.horizon_len + output_patch_len - 1) // output_patch_len`. -/
def num_decode_patches (horizon_len output_patch_len : Nat) : Nat :=
  (horizon_len + output_patch_len - 1) / output_patch_len

/-- The values taken by `step_index` in `for step_index in range(num_decode_patches)`. -/
def decodeStepIndices (horizon_len output_patch_len : Nat) : List Nat :=
  List.range (num_decode_patches horizon_len output_patch_len)

/-! ### Masked statistics (`timesfm_masked_mean_std`, lines 504-556)

A batch element is a list of patches; a patch is a list of values.  `inputs`
and `padding` have the same shape, padding entries are 0 (valid) or 1 (padded).
Every tensor operation of the source acts independently on each batch element,
so the functions below model one batch element. -/

/-- Number of unpadded (pad flag 0) positions of a patch. -/
def validCount (pads : List ℚ) : Nat := (pads.filter (fun p => p == 0)).length

/-- Values of a patch at its unpadded positions. -/
def validValues (arr pads : List ℚ) : List ℚ :=
  ((arr.zip pads).filter (fun vp => vp.2 == 0)).map Prod.fst

/-- Spec-side patch selection: index of the first patch with at least 3 valid
elements, or the last patch if there is none. -/
def selectedPatchIdx (padding : List (List ℚ)) : Nat :=
  if padding.findIdx (fun pads => decide (3 ≤ validCount pads)) = padding.length
  then padding.length - 1
  else padding.findIdx (fun pads => decide (3 ≤ validCount pads))

/-- Spec-side masked mean of a patch: ordinary mean of the valid values (the
divisor is clamped to 1 when the patch has no valid value, as in the source). -/
def specMaskedMean (arr pads : List ℚ) : ℚ :=
  (validValues arr pads).sum / ((max (validCount pads) 1 : Nat) : ℚ)

/-- Spec-side masked variance of a patch: `E[x^2] - E[x]^2` over the valid
values, clamped to be nonnegative. -/
def specMaskedVar (arr pads : List ℚ) : ℚ :=
  max 0 (((validValues arr pads).map (fun x => x ^ 2)).sum / ((max (validCount pads) 1 : Nat) : ℚ)
    - specMaskedMean arr pads ^ 2)

/-- Index of the first maximal value of a list (the documented contract of the
external primitive `torch.argmax`); 0 on the empty list. -/
def argmaxFirst (l : List ℚ) : Nat :=
  match l.max? with
  | none => 0
  | some m => l.findIdx (fun x => x == m)

/-- Transcribes `pad_sum = torch.sum(1 - padding, dim=2)`. -/
def padSum (padding : List (List ℚ)) : List ℚ :=
  padding.map (fun pads => (pads.map (fun p => 1 - p)).sum)

/-- The indicator `(arr >= 3).to(torch.int32)` applied to `pad_sum`. -/
def padGe3Indicator (padding : List (List ℚ)) : List ℚ :=
  (padSum padding).map (fun s => if (3 : ℚ) ≤ s then (1 : ℚ) else 0)

/-- The function `_get_patch_index` applied to `pad_sum`: `torch.argmax` of the indicator of
`arr >= 3` (`indices`), with fallback to `n - 1` when the indicator row sum
(`row_sum`) is zero. -/
def getPatchIndex (padding : List (List ℚ)) : Nat :=
  if (padGe3Indicator padding).sum = 0 then padding.length - 1
  else argmaxFirst (padGe3Indicator padding)

/-- Lines 532-553 of `timesfm_masked_mean_std` applied to one selected patch
`arr` with pad flags `pad`, up to (but not including) the final `torch.sqrt`:
mask, clamped valid-element count, masked sum and squared sum, masked mean and
clamped masked variance. -/
def patchMeanVar (arr pad : List ℚ) : ℚ × ℚ :=
  let mask := pad.map (fun p => 1 - p)
  let nv0 := mask.sum
  let num_valid := if nv0 = 0 then 1 else nv0
  let masked := List.zipWith (fun a m => a * m) arr mask
  let masked_sum := masked.sum
  let masked_squared_sum := (masked.map (fun x => x ^ 2)).sum
  let masked_mean := masked_sum / num_valid
  let mv0 := masked_squared_sum / num_valid - masked_mean ^ 2
  let masked_var := if mv0 < 0 then 0 else mv0
  (masked_mean, masked_var)

/-- The function `timesfm_masked_mean_std` up to (but not including) the final `torch.sqrt`:
selects the patch `inputs[bidxs, patch_indices, :]` / `padding[bidxs,
patch_indices, :]` and computes its masked mean and clamped masked variance. -/
def timesfm_masked_mean_var (inputs padding : List (List ℚ)) : ℚ × ℚ :=
  patchMeanVar (inputs.getD (getPatchIndex padding) []) (padding.getD (getPatchIndex padding) [])

/-- The function `timesfm_masked_mean_std`: the masked mean and masked standard deviation
(`torch.sqrt` of the clamped masked variance). -/
noncomputable def timesfm_masked_mean_std (inputs padding : List (List ℚ)) : ℚ × ℝ :=
  ((timesfm_masked_mean_var inputs padding).1,
   Real.sqrt (timesfm_masked_mean_var inputs padding).2)

/-! ### Normalization (`TimesFmModel._forward_transform`, lines 767-785, and
`TimesFmModelForPrediction._reverse_transform`, lines 955-958) -/

/-- The sigma flooring of `_forward_transform`:
`sigma = torch.where(sigma < tolerance, 1, sigma)` applied to the masked
standard deviation `sqrt v`. -/
noncomputable def sigmaFloored (tolerance : ℚ) (v : ℚ) : ℝ :=
  if Real.sqrt v < (tolerance : ℝ) then 1 else Real.sqrt v

/-- The per-series statistics `(mu, sigma)` returned by `_forward_transform`:
the masked mean and the floored masked standard deviation. -/
noncomputable def forwardTransformStats (cfg : Config) (inputs padding : List (List ℚ)) :
    ℝ × ℝ :=
  (((timesfm_masked_mean_var inputs padding).1 : ℝ),
   sigmaFloored cfg.tolerance (timesfm_masked_mean_var inputs padding).2)

/-- The elementwise normalization of `_forward_transform`:
`outputs = (inputs - mu) / sigma` followed by
`torch.where(torch.abs(inputs - pad_val) < tolerance, pad_val, outputs)`. -/
noncomputable def forwardTransformElem (cfg : Config) (mu sigma : ℝ) (x : ℚ) : ℝ :=
  if |x - cfg.pad_val| < cfg.tolerance then ((cfg.pad_val : ℚ) : ℝ)
  else ((x : ℝ) - mu) / sigma

/-- The elementwise denormalization of `_reverse_transform`:
`outputs * sigma + mu`. -/
noncomputable def reverseTransformElem (mu sigma : ℝ) (v : ℝ) : ℝ :=
  v * sigma + mu

/-! ### Positional embedding (`TimesFmPositionalEmbedding.forward`,
lines 144-174)

The output `[1, ., .]` batch axis is dropped; a result is the list of rows of
the single batch element.  `F.pad(signal, (0, 0, 0, embedding_dims % 2))` pads
the *second-to-last* axis of `signal : [1, seq_length, 2 * (embedding_dims // 2)]`
by `embedding_dims % 2` trailing rows (the last axis is padded by `(0, 0)`,
i.e. not at all). -/

/-- Transcribes `TimesFmPositionalEmbedding.forward(seq_length)`: sinusoids over
`embedding_dims // 2` log-spaced timescales, sine and cosine halves
concatenated along the feature axis, then `F.pad(signal, (0, 0, 0,
embedding_dims % 2))`. -/
noncomputable def timesFmPositionalEmbedding (min_timescale max_timescale : ℚ)
    (embedding_dims seq_length : Nat) : List (List ℝ) :=
  let num_timescales := embedding_dims / 2
  let log_timescale_increment :=
    Real.log ((max_timescale : ℝ) / (min_timescale : ℝ)) / ((max (num_timescales - 1) 1 : Nat) : ℝ)
  let inv_timescales := (List.range num_timescales).map
    (fun (i : Nat) => (min_timescale : ℝ) * Real.exp (-(i : ℝ) * log_timescale_increment))
  let rows := (List.range seq_length).map (fun (t : Nat) =>
    inv_timescales.map (fun w => Real.sin ((t : ℝ) * w))
      ++ inv_timescales.map (fun w => Real.cos ((t : ℝ) * w)))
  rows ++ List.replicate (embedding_dims % 2) (List.replicate (2 * num_timescales) 0)

/-! ### Preprocessing (`TimesFmModelForPrediction._preprocess`, lines 898-939,
and the call-site truncation `inputs = [ts[-fcontext_len:] for ts in inputs]`
at line 1020) -/

/-- The Python slice `l[-k:]`: the whole list when `k = 0`, otherwise the last
`min k (length l)` elements. -/
def pySliceLast (k : Nat) (l : List ℚ) : List ℚ :=
  if k = 0 then l else l.drop (l.length - k)

/-- The method `_preprocess` applied to one series `ts`: returns the padded series and its
pad mask of length `context_len + horizon_len` (front-padding short series
with zeros and pad flag 1, truncating long series to the last `context_len`
values). -/
def preprocessSeries (context_len horizon_len : Nat) (ts : List ℚ) : List ℚ × List ℚ :=
  let input_len := ts.length
  let padding0 := List.replicate (input_len + horizon_len) (0 : ℚ)
  if input_len < context_len then
    (List.replicate (context_len - input_len) (0 : ℚ) ++ ts,
     List.replicate (context_len - input_len) (1 : ℚ) ++ padding0)
  else if context_len < input_len then
    (pySliceLast context_len ts, pySliceLast (context_len + horizon_len) padding0)
  else (ts, padding0)

/-! ### Truncate-negative clamping (`TimesFmModelForPrediction.forward`,
lines 1020-1021 and 1108-1110) -/

/-- Transcribes `inp_min = torch.min(torch.stack([torch.min(ts) for ts in inputs]))`
over the (already truncated) input series; `torch.min` requires nonempty
tensors, so the minimum is an `Option` that is `some` exactly on the inputs
the source accepts. -/
def inpMin (inputs : List (List ℚ)) : Option ℚ := (inputs.flatMap id).min?

/-- Lines 1108-1110: `if inp_min >= 0 and truncate_negative:` clamp the mean
and the full forecasts elementwise with `torch.maximum(., 0.0)`. -/
def truncateNegativeStage (truncate_negative : Bool) (inputs : List (List ℚ))
    (mean_outputs : List (List ℚ)) (full_outputs : List (List (List ℚ))) :
    List (List ℚ) × List (List (List ℚ)) :=
  if (match inpMin inputs with
      | some m => decide (0 ≤ m)
      | none => false) && truncate_negative then
    (mean_outputs.map (fun row => row.map (fun x => max x 0)),
     full_outputs.map (fun row => row.map (fun cell => cell.map (fun x => max x 0))))
  else (mean_outputs, full_outputs)

/-! ### Quantile (pinball) loss (`TimesFmModelForPrediction._quantile_loss`,
lines 960-966) -/

/-- The mean `Tensor.mean()` of a 1-D tensor modelled as a list (0 on the empty list,
whose mean the source never takes). -/
def listMean (l : List ℚ) : ℚ := l.sum / (l.length : ℚ)

/-- The loop body of `_quantile_loss` for one quantile `q`:
`errors = targets - predictions[..., i]`,
`loss = torch.max((q - 1) * errors, q * errors)`, recorded as `loss.mean()`. -/
def pinballLoss (q : ℚ) (predictions targets : List ℚ) : ℚ :=
  listMean (List.zipWith (fun p t => max ((q - 1) * (t - p)) (q * (t - p))) predictions targets)

/-- Mean absolute error between predictions and targets. -/
def meanAbsError (predictions targets : List ℚ) : ℚ :=
  listMean (List.zipWith (fun p t => |t - p|) predictions targets)

/-- The method `_quantile_loss`: `torch.stack(losses).mean()` over the per-quantile
pinball losses, with `predictions` given as one column per quantile. -/
def timesfm_quantile_loss (quantiles : List ℚ) (predictions : List (List ℚ))
    (targets : List ℚ) : ℚ :=
  listMean (List.zipWith (fun q col => pinballLoss q col targets) quantiles predictions)

/-! ### Construction (`TimesFmAttention.__init__`, lines 180-202, and
`TimesFmDecoderLayer.__init__`, lines 358-367) -/

/-- The fatal errors construction can raise. -/
inductive InitError where
  | valueError : String → InitError
  | zeroDivisionError : InitError
  | assertionError : InitError
deriving DecidableEq

/-- The head bookkeeping built by `TimesFmAttention.__init__`. -/
structure AttentionState where
  num_heads : Nat
  num_kv_heads : Nat
  num_queries_per_kv : Nat
deriving DecidableEq

/-- Transcribes `TimesFmAttention.__init__`: `self.num_heads = config.num_heads` and
`self.num_kv_heads = config.num_heads` (the config's `num_key_value_heads` is
never read), then `assert self.num_heads % self.num_kv_heads == 0` (Python
raises `ZeroDivisionError` on `% 0`) and
`self.num_queries_per_kv = self.num_heads // self.num_kv_heads`. -/
def timesFmAttention_init (cfg : Config) : Except InitError AttentionState :=
  let num_heads := cfg.num_heads
  let num_kv_heads := cfg.num_heads
  if num_kv_heads = 0 then Except.error InitError.zeroDivisionError
  else if num_heads % num_kv_heads = 0 then
    Except.ok { num_heads := num_heads, num_kv_heads := num_kv_heads,
                num_queries_per_kv := num_heads / num_kv_heads }
  else Except.error InitError.assertionError

/-- The registry `TIMESFM_ATTENTION_CLASSES`: the known attention implementation names. -/
def TIMESFM_ATTENTION_CLASSES : List String := ["eager", "sdpa"]

/-- Transcribes `TimesFmDecoderLayer.__init__`: raises `ValueError` for an unknown
`config._attn_implementation`, otherwise builds the attention block (the MLP
and norm layers raise nothing). -/
def timesFmDecoderLayer_init (cfg : Config) : Except InitError AttentionState :=
  if cfg.attn_implementation ∈ TIMESFM_ATTENTION_CLASSES then timesFmAttention_init cfg
  else Except.error (InitError.valueError "Unknown attention implementation")

/-- Transcribes `torch.repeat_interleave(., n, dim=2)` along the head axis. -/
def repeatInterleave {α : Type} (n : Nat) (l : List α) : List α :=
  l.flatMap (List.replicate n)

/-- The grouped-query expansion branch of `TimesFmAttention.forward`
(lines 239-242): keys and values are repeated only when
`self.num_kv_heads != self.num_heads`. -/
def gqaExpandKV {α : Type} (st : AttentionState) (kv : List α) : List α :=
  if st.num_kv_heads ≠ st.num_heads then repeatInterleave st.num_queries_per_kv kv else kv

/-- A concrete configuration used by witnesses (values as in the spec's §6:
quantiles in `(0,1)`, a small positive tolerance, the pad sentinel). -/
def cfgW : Config where
  patch_len := 2
  context_len := 4
  horizon_len := 2
  num_heads := 4
  num_key_value_heads := 4
  min_timescale := 1
  max_timescale := 10000
  model_dim := 16
  quantiles := [1/10, 1/2, 9/10]
  tolerance := 1/1000000
  pad_val := 1123581321
  attn_implementation := "eager"

/-- A configuration with a valid attention name whose `num_heads = 8` is not
divisible by `num_key_value_heads = 3`. -/
def cfgC9 : Config := { cfgW with num_heads := 8, num_key_value_heads := 3 }

/-- The attention state built from `cfgW`. -/
def stW : AttentionState where
  num_heads := 4
  num_kv_heads := 4
  num_queries_per_kv := 1

end TimesFm

namespace TimesFm

/-- Helper: the Python expression `(h + p - 1) // p` is the ceiling of `h / p`. -/
theorem ceil_div_eq_num_decode_patches (h p : Nat) (hp : 0 < p) :
    num_decode_patches h p = ⌈(h : ℚ) / (p : ℚ)⌉₊ := by
  have hp' : (0 : ℚ) < (p : ℚ) := by exact_mod_cast hp
  unfold num_decode_patches
  apply Nat.le_antisymm
  · rw [Nat.div_le_iff_le_mul_add_pred hp]
    have h1 : (h : ℚ) / (p : ℚ) ≤ (⌈(h : ℚ) / (p : ℚ)⌉₊ : ℚ) := Nat.le_ceil _
    rw [div_le_iff₀ hp'] at h1
    have h2 : h ≤ ⌈(h : ℚ) / (p : ℚ)⌉₊ * p := by exact_mod_cast h1
    have h3 : h ≤ p * ⌈(h : ℚ) / (p : ℚ)⌉₊ := by rw [Nat.mul_comm]; exact h2
    omega
  · rw [Nat.ceil_le, div_le_iff₀ hp']
    have h4 := Nat.div_add_mod (h + p - 1) p
    have h5 := Nat.mod_lt (h + p - 1) hp
    have h6 : h ≤ (h + p - 1) / p * p := by
      have := Nat.mul_comm ((h + p - 1) / p) p
      omega
    exact_mod_cast h6

/-- C1: the autoregressive decode loop executes exactly
`ceil(horizon_length / output_patch_length)` steps; in particular 2 steps for
`horizon_length = 16, output_patch_length = 8` and 2 steps for
`horizon_length = 10, output_patch_length = 8`. -/
theorem decode_loop_step_count (h p : Nat) (hp : 0 < p) :
    (decodeStepIndices h p).length = ⌈(h : ℚ) / (p : ℚ)⌉₊ ∧
    (decodeStepIndices 16 8).length = 2 ∧
    (decodeStepIndices 10 8).length = 2 := by
  refine ⟨?_, ?_, ?_⟩
  · rw [decodeStepIndices, List.length_range, ceil_div_eq_num_decode_patches h p hp]
  · rfl
  · rfl

/-- Witness for C1 at `horizon_length = 16`, `output_patch_length = 8`. -/
theorem decode_loop_step_count_witness :
    (decodeStepIndices 16 8).length = ⌈((16 : Nat) : ℚ) / ((8 : Nat) : ℚ)⌉₊ ∧
    (decodeStepIndices 16 8).length = 2 ∧
    (decodeStepIndices 10 8).length = 2 :=
  decode_loop_step_count 16 8 (by decide)

/-- Helper: `torch.sum(1 - padding, dim=2)` counts the valid positions when
the pad flags are 0/1 valued. -/
theorem sum_one_sub_eq_validCount (pads : List ℚ) (h : ∀ p ∈ pads, p = 0 ∨ p = 1) :
    (pads.map (fun p => 1 - p)).sum = (validCount pads : ℚ) := by
  induction pads with
  | nil => simp [validCount]
  | cons p ps ih =>
    have hp := h p (by simp)
    have ih' := ih (fun q hq => h q (by simp [hq]))
    rcases hp with hp | hp <;> subst hp <;>
      simp [validCount, List.filter_cons, ih', validCount] at * <;> push_cast <;> ring

/-- Helper: the indicator list of `_get_patch_index` tests `3 ≤ validCount`. -/
theorem padGe3Indicator_eq (padding : List (List ℚ))
    (hbin : ∀ pads ∈ padding, ∀ p ∈ pads, p = 0 ∨ p = 1) :
    padGe3Indicator padding
      = padding.map (fun pads => if 3 ≤ validCount pads then (1 : ℚ) else 0) := by
  rw [padGe3Indicator, padSum, List.map_map]
  apply List.map_congr_left
  intro pads hmem
  simp only [Function.comp]
  have hsum := sum_one_sub_eq_validCount pads (hbin pads hmem)
  by_cases h3 : 3 ≤ validCount pads
  · rw [if_pos (by rw [hsum]; exact_mod_cast h3), if_pos h3]
  · rw [if_neg (by rw [hsum]; exact_mod_cast h3), if_neg h3]

/-- Helper: a sum of 0/1 values vanishes iff every value is 0. -/
theorem zero_one_sum_eq_zero_iff (l : List ℚ) (h : ∀ x ∈ l, x = 0 ∨ x = 1) :
    l.sum = 0 ↔ ∀ x ∈ l, x = 0 := by
  induction l with
  | nil => simp
  | cons a t ih =>
    have ha := h a (by simp)
    have ih' := ih (fun x hx => h x (by simp [hx]))
    have ht0 : (0 : ℚ) ≤ t.sum :=
      List.sum_nonneg (fun x hx => by rcases h x (by simp [hx]) with h | h <;> simp [h])
    rcases ha with ha | ha <;> subst ha
    · simp only [List.sum_cons, zero_add, ih']
      constructor
      · intro hall x hx
        rcases List.mem_cons.mp hx with rfl | hx
        · rfl
        · exact hall x hx
      · intro hall x hx; exact hall x (by simp [hx])
    · constructor
      · intro hs
        exfalso
        simp only [List.sum_cons] at hs
        linarith
      · intro hall
        exact absurd (hall 1 (by simp)) one_ne_zero

/-- Helper: the maximum of a 0/1 list containing a 1 is 1. -/
theorem max?_eq_one (l : List ℚ) (h01 : ∀ x ∈ l, x = 0 ∨ x = 1) (h1 : (1 : ℚ) ∈ l) :
    l.max? = some 1 := by
  have anti : Std.Antisymm ((· : ℚ) ≤ ·) := ⟨fun h1 h2 => le_antisymm h1 h2⟩
  rw [List.max?_eq_some_iff (fun a : ℚ => le_refl a) (fun a b => max_choice a b)
    (fun _ _ _ => max_le_iff)]
  refine ⟨h1, fun b hb => ?_⟩
  rcases h01 b hb with h | h <;> simp [h]

/-- Helper: `argmaxFirst` through a known maximum. -/
theorem argmaxFirst_eq_findIdx (l : List ℚ) (m : ℚ) (h : l.max? = some m) :
    argmaxFirst l = l.findIdx (fun x => x == m) := by
  rw [argmaxFirst, h]

/-- Helper: `findIdx` on a mapped list. -/
theorem findIdx_map_comp {α β : Type} (p : α → Bool) (f : β → α) (l : List β) :
    (l.map f).findIdx p = l.findIdx (fun b => p (f b)) := by
  induction l with
  | nil => rfl
  | cons a t ih => simp [List.findIdx_cons, ih]

/-- Helper: the `argmax`-based index computation of `_get_patch_index` agrees
with the first-patch-with-3-valid-elements selection (last patch fallback). -/
theorem getPatchIndex_eq_selectedPatchIdx (padding : List (List ℚ))
    (hbin : ∀ pads ∈ padding, ∀ p ∈ pads, p = 0 ∨ p = 1) :
    getPatchIndex padding = selectedPatchIdx padding := by
  have hind := padGe3Indicator_eq padding hbin
  rw [getPatchIndex, selectedPatchIdx, hind]
  have h01 : ∀ x ∈ padding.map (fun pads => if 3 ≤ validCount pads then (1 : ℚ) else 0),
      x = 0 ∨ x = 1 := by
    intro x hx
    obtain ⟨pads, _, rfl⟩ := List.mem_map.mp hx
    split <;> simp
  by_cases hex : ∃ pads ∈ padding, 3 ≤ validCount pads
  · obtain ⟨pads0, hmem0, h30⟩ := hex
    have h1mem : (1 : ℚ) ∈ padding.map (fun pads => if 3 ≤ validCount pads then (1 : ℚ) else 0) :=
      List.mem_map.mpr ⟨pads0, hmem0, by rw [if_pos h30]⟩
    have hsum_ne : (padding.map (fun pads => if 3 ≤ validCount pads then (1 : ℚ) else 0)).sum ≠ 0 := by
      intro h0
      exact one_ne_zero ((zero_one_sum_eq_zero_iff _ h01).mp h0 1 h1mem)
    rw [if_neg hsum_ne, argmaxFirst_eq_findIdx _ 1 (max?_eq_one _ h01 h1mem)]
    rw [findIdx_map_comp]
    have hpred : (fun pads => ((if 3 ≤ validCount pads then (1 : ℚ) else 0) == 1))
        = (fun pads => decide (3 ≤ validCount pads)) := by
      funext pads
      by_cases h3 : 3 ≤ validCount pads <;> simp [h3]
    rw [hpred]
    have hlt : padding.findIdx (fun pads => decide (3 ≤ validCount pads)) < padding.length :=
      List.findIdx_lt_length_of_exists ⟨pads0, hmem0, by simpa using h30⟩
    rw [if_neg (Nat.ne_of_lt hlt)]
  · push_neg at hex
    have hall0 : ∀ x ∈ padding.map (fun pads => if 3 ≤ validCount pads then (1 : ℚ) else 0),
        x = 0 := by
      intro x hx
      obtain ⟨pads, hm, rfl⟩ := List.mem_map.mp hx
      rw [if_neg (Nat.not_le.mpr (hex pads hm))]
    have hsum0 := (zero_one_sum_eq_zero_iff _ h01).mpr hall0
    rw [if_pos hsum0]
    have hlen_idx : padding.findIdx (fun pads => decide (3 ≤ validCount pads)) = padding.length :=
      List.findIdx_eq_length_of_false (fun pads hm => by simpa using Nat.not_le.mpr (hex pads hm))
    rw [if_pos hlen_idx]

/-- Helper: masked products sum to the sums over valid positions when the pad
flags are 0/1 valued. -/
theorem masked_prod_sums (arr : List ℚ) (pads : List ℚ) (hlen : arr.length = pads.length)
    (hbin : ∀ p ∈ pads, p = 0 ∨ p = 1) :
    (List.zipWith (fun a m => a * m) arr (pads.map (fun p => 1 - p))).sum
        = (validValues arr pads).sum ∧
    ((List.zipWith (fun a m => a * m) arr (pads.map (fun p => 1 - p))).map (fun x => x ^ 2)).sum
        = ((validValues arr pads).map (fun x => x ^ 2)).sum := by
  induction arr generalizing pads with
  | nil => simp [validValues]
  | cons a t ih =>
    cases pads with
    | nil => simp at hlen
    | cons p ps =>
      have hp := hbin p (by simp)
      have hlen' : t.length = ps.length := by simpa using hlen
      have ih' := ih ps hlen' (fun q hq => hbin q (by simp [hq]))
      rcases hp with hp | hp <;> subst hp <;>
        simp [validValues, List.filter_cons, ih'.1, ih'.2] at *

/-- Helper: the clamped valid-element counter equals `max validCount 1`. -/
theorem divisor_eq (n : Nat) : (if (n : ℚ) = 0 then 1 else (n : ℚ)) = ((max n 1 : Nat) : ℚ) := by
  rcases Nat.eq_zero_or_pos n with h | h
  · subst h; simp
  · rw [if_neg (by exact_mod_cast Nat.pos_iff_ne_zero.mp h), Nat.max_eq_left h]

/-- Helper: clamping below zero is `max 0`. -/
theorem clamp_eq_max (x : ℚ) : (if x < 0 then 0 else x) = max 0 x := by
  rcases lt_or_ge x 0 with h | h
  · rw [if_pos h, max_eq_left h.le]
  · rw [if_neg (not_lt.mpr h), max_eq_right h]

/-- Helper: the per-patch statistics of `timesfm_masked_mean_std` are the
masked mean and the clamped masked variance of the patch. -/
theorem patchMeanVar_eq_spec (arr pads : List ℚ) (hlen : arr.length = pads.length)
    (hbin : ∀ p ∈ pads, p = 0 ∨ p = 1) :
    patchMeanVar arr pads = (specMaskedMean arr pads, specMaskedVar arr pads) := by
  obtain ⟨hs, hs2⟩ := masked_prod_sums arr pads hlen hbin
  have hm := sum_one_sub_eq_validCount pads hbin
  rw [patchMeanVar]
  simp only [hs, hs2, hm, divisor_eq]
  rw [clamp_eq_max, specMaskedVar, specMaskedMean]

/-- Helper: the selected patch index is within bounds for a nonempty batch
element. -/
theorem selectedPatchIdx_lt (padding : List (List ℚ)) (hne : padding ≠ []) :
    selectedPatchIdx padding < padding.length := by
  have hlen : 0 < padding.length := List.length_pos.mpr hne
  have hle : padding.findIdx (fun pads => decide (3 ≤ validCount pads)) ≤ padding.length :=
    List.findIdx_le_length (fun pads => decide (3 ≤ validCount pads))
  rw [selectedPatchIdx]
  split <;> omega

/-- Helper: `getD` at an in-bounds index is a member. -/
theorem getD_mem_of_lt {α : Type} (l : List α) (i : Nat) (d : α) (h : i < l.length) :
    l.getD i d ∈ l := by
  rw [List.getD_eq_getElem?_getD, List.getElem?_eq_getElem h]
  exact List.getElem_mem h

/-- C2: `timesfm_masked_mean_std` returns, per batch element, the masked mean
and masked standard deviation (square root of the clamped `E[x^2] - E[x]^2`
variance over unpadded positions) of the first patch containing at least 3
valid elements, falling back to the last patch when no patch has 3 valid
elements. -/
theorem masked_mean_std_selects_first_patch (inputs padding : List (List ℚ))
    (hne : padding ≠ [])
    (hlen : ∀ i < padding.length, (inputs.getD i []).length = (padding.getD i []).length)
    (hbin : ∀ pads ∈ padding, ∀ p ∈ pads, p = 0 ∨ p = 1) :
    getPatchIndex padding = selectedPatchIdx padding ∧
    timesfm_masked_mean_std inputs padding =
      (specMaskedMean (inputs.getD (selectedPatchIdx padding) [])
          (padding.getD (selectedPatchIdx padding) []),
       Real.sqrt (specMaskedVar (inputs.getD (selectedPatchIdx padding) [])
          (padding.getD (selectedPatchIdx padding) []))) := by
  have hidx := getPatchIndex_eq_selectedPatchIdx padding hbin
  refine ⟨hidx, ?_⟩
  have hlt := selectedPatchIdx_lt padding hne
  have hmem : padding.getD (selectedPatchIdx padding) [] ∈ padding :=
    getD_mem_of_lt padding (selectedPatchIdx padding) [] hlt
  have hspec := patchMeanVar_eq_spec (inputs.getD (selectedPatchIdx padding) [])
    (padding.getD (selectedPatchIdx padding) [])
    (hlen (selectedPatchIdx padding) hlt) (hbin _ hmem)
  rw [timesfm_masked_mean_std, timesfm_masked_mean_var, hidx, hspec]

/-- Witness for C2: a batch element of three length-2 patches, none of which
has 3 valid elements, falls back to the last patch. -/
theorem masked_mean_std_selects_first_patch_witness :
    getPatchIndex [[1, 1], [0, 1], [0, 1]] = selectedPatchIdx [[1, 1], [0, 1], [0, 1]] ∧
    timesfm_masked_mean_std [[5, 6], [7, 8], [9, 10]] [[1, 1], [0, 1], [0, 1]] =
      (specMaskedMean ([[5, 6], [7, 8], [9, 10]].getD
            (selectedPatchIdx [[1, 1], [0, 1], [0, 1]]) [])
          ([[1, 1], [0, 1], [0, 1]].getD (selectedPatchIdx [[1, 1], [0, 1], [0, 1]]) []),
       Real.sqrt (specMaskedVar ([[5, 6], [7, 8], [9, 10]].getD
            (selectedPatchIdx [[1, 1], [0, 1], [0, 1]]) [])
          ([[1, 1], [0, 1], [0, 1]].getD (selectedPatchIdx [[1, 1], [0, 1], [0, 1]]) []))) :=
  masked_mean_std_selects_first_patch [[5, 6], [7, 8], [9, 10]] [[1, 1], [0, 1], [0, 1]]
    (by decide) (by decide) (by decide)

/-- Helper: the floored sigma is strictly positive whenever the configured
tolerance is positive. -/
theorem sigmaFloored_pos (tolerance v : ℚ) (htol : 0 < tolerance) :
    0 < sigmaFloored tolerance v := by
  have htol' : (0 : ℝ) < (tolerance : ℝ) := by exact_mod_cast htol
  by_cases h : Real.sqrt v < (tolerance : ℝ)
  · rw [sigmaFloored, if_pos h]; exact one_pos
  · rw [sigmaFloored, if_neg h]
    push_neg at h
    linarith

/-- C3: the sigma produced by the normalization of `_forward_transform` is
strictly positive whenever the configured tolerance is positive; any standard
deviation below the tolerance (including 0) is replaced by 1 before it is used
as a divisor. -/
theorem forward_transform_sigma_pos (cfg : Config) (inputs padding : List (List ℚ))
    (htol : 0 < cfg.tolerance) :
    0 < (forwardTransformStats cfg inputs padding).2 ∧
    (Real.sqrt (timesfm_masked_mean_var inputs padding).2 < (cfg.tolerance : ℝ) →
      (forwardTransformStats cfg inputs padding).2 = 1) := by
  constructor
  · exact sigmaFloored_pos cfg.tolerance _ htol
  · intro h
    simp only [forwardTransformStats, sigmaFloored, if_pos h]

/-- Witness for C3: a constant (zero-variance) series yields sigma 1 > 0. -/
theorem forward_transform_sigma_pos_witness :
    0 < (forwardTransformStats cfgW [[0, 0, 0]] [[0, 0, 0]]).2 ∧
    (Real.sqrt (timesfm_masked_mean_var [[0, 0, 0]] [[0, 0, 0]]).2 < ((cfgW.tolerance : ℚ) : ℝ) →
      (forwardTransformStats cfgW [[0, 0, 0]] [[0, 0, 0]]).2 = 1) :=
  forward_transform_sigma_pos cfgW [[0, 0, 0]] [[0, 0, 0]] (by norm_num [cfgW])

/-- C4: for a value that is not within tolerance of the pad sentinel, the
forward transform `(x - mu) / sigma` followed by the reverse transform
`value * sigma + mu` with the same statistics returns the value exactly. -/
theorem normalize_denormalize_round_trip (cfg : Config) (inputs padding : List (List ℚ))
    (x : ℚ) (htol : 0 < cfg.tolerance) (hx : ¬ |x - cfg.pad_val| < cfg.tolerance) :
    reverseTransformElem (forwardTransformStats cfg inputs padding).1
      (forwardTransformStats cfg inputs padding).2
      (forwardTransformElem cfg (forwardTransformStats cfg inputs padding).1
        (forwardTransformStats cfg inputs padding).2 x) = (x : ℝ) := by
  have hs : 0 < (forwardTransformStats cfg inputs padding).2 := by
    simp only [forwardTransformStats]
    exact sigmaFloored_pos cfg.tolerance _ htol
  rw [forwardTransformElem, if_neg hx, reverseTransformElem,
    div_mul_cancel₀ _ (ne_of_gt hs), sub_add_cancel]

/-- Witness for C4 at `x = 5`. -/
theorem normalize_denormalize_round_trip_witness :
    reverseTransformElem (forwardTransformStats cfgW [[0, 0, 0]] [[0, 0, 0]]).1
      (forwardTransformStats cfgW [[0, 0, 0]] [[0, 0, 0]]).2
      (forwardTransformElem cfgW (forwardTransformStats cfgW [[0, 0, 0]] [[0, 0, 0]]).1
        (forwardTransformStats cfgW [[0, 0, 0]] [[0, 0, 0]]).2 5) = ((5 : ℚ) : ℝ) :=
  normalize_denormalize_round_trip cfgW [[0, 0, 0]] [[0, 0, 0]] 5 (by norm_num [cfgW])
    (by norm_num [cfgW])

/-- Helper: a member of a nonempty batch of nonempty series yields a minimum. -/
theorem inpMin_eq_some (inputs : List (List ℚ)) (x : ℚ) (hx : x ∈ inputs.flatMap id) :
    ∃ m, inpMin inputs = some m ∧ m ∈ inputs.flatMap id ∧ m ≤ x := by
  obtain ⟨m, hm⟩ := Option.isSome_iff_exists.mp (List.isSome_min?_of_mem hx)
  refine ⟨m, hm, List.min?_mem (fun a b => min_choice a b) hm, ?_⟩
  exact (List.le_min?_iff (fun _ _ _ => le_min_iff) hm).mp (le_refl m) x hx

/-- C5: with `truncate_negative` set and all (truncated) input values
nonnegative, the final stage of `forward` clamps every mean and full forecast
value to be nonnegative; with any negative input value present, the forecasts
are returned unmodified. -/
theorem truncate_negative_clamps (tn : Bool) (inputs mean_outputs : List (List ℚ))
    (full_outputs : List (List (List ℚ)))
    (hne : inputs ≠ []) (hne2 : ∀ ts ∈ inputs, ts ≠ []) :
    (tn = true → (∀ ts ∈ inputs, ∀ x ∈ ts, 0 ≤ x) →
      truncateNegativeStage tn inputs mean_outputs full_outputs =
        (mean_outputs.map (fun row => row.map (fun x => max x 0)),
         full_outputs.map (fun row => row.map (fun cell => cell.map (fun x => max x 0)))) ∧
      (∀ row ∈ (truncateNegativeStage tn inputs mean_outputs full_outputs).1,
        ∀ x ∈ row, 0 ≤ x) ∧
      (∀ row ∈ (truncateNegativeStage tn inputs mean_outputs full_outputs).2,
        ∀ cell ∈ row, ∀ x ∈ cell, 0 ≤ x)) ∧
    ((∃ ts ∈ inputs, ∃ x ∈ ts, x < 0) →
      truncateNegativeStage tn inputs mean_outputs full_outputs
        = (mean_outputs, full_outputs)) := by
  constructor
  · intro htn hpos
    obtain ⟨ts0, hts0⟩ := List.exists_mem_of_ne_nil inputs hne
    obtain ⟨x0, hx0⟩ := List.exists_mem_of_ne_nil ts0 (hne2 ts0 hts0)
    have hx0' : x0 ∈ inputs.flatMap id := List.mem_flatMap.mpr ⟨ts0, hts0, hx0⟩
    obtain ⟨m, hm, hmmem, _⟩ := inpMin_eq_some inputs x0 hx0'
    obtain ⟨tsm, htsm, hmts⟩ := List.mem_flatMap.mp hmmem
    have h0m : 0 ≤ m := hpos tsm htsm m hmts
    have hcond : ((match inpMin inputs with
        | some m => decide (0 ≤ m)
        | none => false) && tn) = true := by
      rw [hm, htn]
      simp [h0m]
    have heq : truncateNegativeStage tn inputs mean_outputs full_outputs =
        (mean_outputs.map (fun row => row.map (fun x => max x 0)),
         full_outputs.map (fun row => row.map (fun cell => cell.map (fun x => max x 0)))) := by
      rw [truncateNegativeStage, if_pos hcond]
    refine ⟨heq, ?_, ?_⟩
    · rw [heq]
      intro row hrow x hx
      obtain ⟨row0, _, rfl⟩ := List.mem_map.mp hrow
      obtain ⟨x0, _, rfl⟩ := List.mem_map.mp hx
      exact le_max_right x0 0
    · rw [heq]
      intro row hrow cell hcell x hx
      obtain ⟨row0, _, rfl⟩ := List.mem_map.mp hrow
      obtain ⟨cell0, _, rfl⟩ := List.mem_map.mp hcell
      obtain ⟨x0, _, rfl⟩ := List.mem_map.mp hx
      exact le_max_right x0 0
  · rintro ⟨ts, hts, x, hx, hxneg⟩
    have hx' : x ∈ inputs.flatMap id := List.mem_flatMap.mpr ⟨ts, hts, hx⟩
    obtain ⟨m, hm, _, hmx⟩ := inpMin_eq_some inputs x hx'
    have hnot : ¬ 0 ≤ m := by intro h; linarith
    have hcond : ((match inpMin inputs with
        | some m => decide (0 ≤ m)
        | none => false) && tn) = false := by
      rw [hm]
      simp [hnot]
    rw [truncateNegativeStage, if_neg (by rw [hcond]; exact Bool.false_ne_true)]

/-- Witness for C5: a nonnegative input batch with `truncate_negative` set
clamps the forecasts. -/
theorem truncate_negative_clamps_witness :
    truncateNegativeStage true [[1, 2]] [[-3, 4]] [[[-1], [2]]] =
      ([[-3, 4]].map (fun row => row.map (fun x => max x 0)),
       [[[-1], [2]]].map (fun row => row.map (fun cell => cell.map (fun x => max x 0)))) :=
  ((truncate_negative_clamps true [[1, 2]] [[-3, 4]] [[[-1], [2]]]
    (by decide) (by decide)).1 rfl (by decide)).1

/-- C6: for `embedding_dim = 3` (odd) and `seq_length = 2` the positional
embedding has 3 rows of 2 features each, i.e. shape `[1, seq_length + 1,
embedding_dim - 1]`: `F.pad(signal, (0, 0, 0, embedding_dims % 2))` appends a
zero *row* along the sequence axis instead of a zero column along the feature
axis, contradicting the function's own contract `[1, seq_length,
embedding_dim]`. -/
theorem positional_embedding_odd_dim_shape :
    (timesFmPositionalEmbedding 1 1 3 2).length = 2 + 1 ∧
    ∀ row ∈ timesFmPositionalEmbedding 1 1 3 2, row.length = 3 - 1 := by
  constructor
  · rw [timesFmPositionalEmbedding]
    simp only [List.length_append, List.length_map, List.length_range, List.length_replicate]
  · intro row hrow
    simp only [timesFmPositionalEmbedding] at hrow
    rcases List.mem_append.mp hrow with hmem | hmem
    · obtain ⟨t, _, rfl⟩ := List.mem_map.mp hmem
      simp only [List.length_append, List.length_map, List.length_range]
    · rw [List.eq_of_mem_replicate hmem]
      simp only [List.length_replicate]

/-- Helper: dropping from a replicated list. -/
theorem drop_replicate {α : Type} (i n : Nat) (a : α) :
    (List.replicate n a).drop i = List.replicate (n - i) a := by
  induction i generalizing n with
  | zero => simp
  | succ i ih =>
    cases n with
    | zero => simp
    | succ n => simp [List.replicate_succ, ih]

/-- Helper: dropping past the first part of an appended list. -/
theorem drop_append_of_le_length {α : Type} (l₁ l₂ : List α) (n : Nat)
    (h : l₁.length ≤ n) :
    (l₁ ++ l₂).drop n = l₂.drop (n - l₁.length) := by
  induction l₁ generalizing n with
  | nil => simp
  | cons a t ih =>
    cases n with
    | zero => simp at h
    | succ n =>
      simp only [List.cons_append, List.drop_succ_cons, List.length_cons]
      rw [ih n (by simpa using h)]
      congr 1
      omega

/-- Helper: `getD` on a replicated list. -/
theorem getD_replicate_eval {α : Type} (n i : Nat) (a d : α) :
    (List.replicate n a).getD i d = if i < n then a else d := by
  rw [List.getD_eq_getElem?_getD, List.getElem?_replicate]
  split <;> rfl

/-- Helper: the pad mask built by `_preprocess` for one (already truncated)
series: length `context_len + horizon_len`, horizon portion all zero, 1
exactly on the front-padded prefix, and the padded series for short inputs. -/
theorem preprocessSeries_mask (context_len horizon_len : Nat) (t : List ℚ)
    (hc : 0 < context_len) :
    (preprocessSeries context_len horizon_len t).2.length = context_len + horizon_len ∧
    (preprocessSeries context_len horizon_len t).2.drop context_len
      = List.replicate horizon_len 0 ∧
    (t.length < context_len →
      (preprocessSeries context_len horizon_len t).1
        = List.replicate (context_len - t.length) 0 ++ t ∧
      ∀ i < context_len + horizon_len,
        ((preprocessSeries context_len horizon_len t).2.getD i 0 = 1
          ↔ i < context_len - t.length)) := by
  rcases Nat.lt_trichotomy t.length context_len with h | h | h
  · have hpre : preprocessSeries context_len horizon_len t
        = (List.replicate (context_len - t.length) 0 ++ t,
           List.replicate (context_len - t.length) (1 : ℚ)
             ++ List.replicate (t.length + horizon_len) 0) := by
      rw [preprocessSeries, if_pos h]
    rw [hpre]
    refine ⟨?_, ?_, ?_⟩
    · simp only [List.length_append, List.length_replicate]
      omega
    · rw [drop_append_of_le_length _ _ _ (by simp only [List.length_replicate]; omega),
        List.length_replicate, drop_replicate]
      congr 1
      omega
    · intro _
      refine ⟨rfl, ?_⟩
      intro i hi
      by_cases hilt : i < context_len - t.length
      · rw [List.getD_append _ _ _ _ (by simp only [List.length_replicate]; omega),
          getD_replicate_eval, if_pos hilt]
        simp [hilt]
      · rw [List.getD_append_right _ _ _ _ (by simp only [List.length_replicate]; omega),
          List.length_replicate, getD_replicate_eval]
        split
        · simp [hilt]
        · simp [hilt]
  · have hpre : preprocessSeries context_len horizon_len t
        = (t, List.replicate (t.length + horizon_len) (0 : ℚ)) := by
      rw [preprocessSeries, if_neg (by omega : ¬ t.length < context_len),
        if_neg (by omega : ¬ context_len < t.length)]
    rw [hpre]
    refine ⟨by simp [h], ?_, by omega⟩
    rw [drop_replicate]
    congr 1
    omega
  · have hslice : pySliceLast (context_len + horizon_len)
        (List.replicate (t.length + horizon_len) (0 : ℚ))
        = List.replicate (context_len + horizon_len) 0 := by
      rw [pySliceLast, if_neg (by omega : ¬ context_len + horizon_len = 0),
        List.length_replicate, drop_replicate]
      congr 1
      omega
    have hpre : preprocessSeries context_len horizon_len t
        = (pySliceLast context_len t, List.replicate (context_len + horizon_len) (0 : ℚ)) := by
      rw [preprocessSeries, if_neg (by omega : ¬ t.length < context_len), if_pos h, hslice]
    rw [hpre]
    refine ⟨by simp, ?_, by omega⟩
    rw [drop_replicate]
    congr 1
    omega

/-- C7: each input series is right-truncated to at most `forecast_context_len`
most-recent values; a shorter-than-context series is left-padded with zeros and
its pad mask marks exactly the padded prefix as 1; the returned pad mask has
length `context_len + horizon_len` and its horizon portion is all zeros. -/
theorem preprocess_truncation_and_mask (fcontext_len context_len horizon_len : Nat)
    (ts : List ℚ) (hf : 0 < fcontext_len) (hc : 0 < context_len) :
    (pySliceLast fcontext_len ts).length = min ts.length fcontext_len ∧
    pySliceLast fcontext_len ts
      = ts.drop (ts.length - (pySliceLast fcontext_len ts).length) ∧
    (preprocessSeries context_len horizon_len (pySliceLast fcontext_len ts)).2.length
      = context_len + horizon_len ∧
    (preprocessSeries context_len horizon_len (pySliceLast fcontext_len ts)).2.drop context_len
      = List.replicate horizon_len 0 ∧
    ((pySliceLast fcontext_len ts).length < context_len →
      (preprocessSeries context_len horizon_len (pySliceLast fcontext_len ts)).1
        = List.replicate (context_len - (pySliceLast fcontext_len ts).length) 0
            ++ pySliceLast fcontext_len ts ∧
      ∀ i < context_len + horizon_len,
        ((preprocessSeries context_len horizon_len (pySliceLast fcontext_len ts)).2.getD i 0 = 1
          ↔ i < context_len - (pySliceLast fcontext_len ts).length)) := by
  have hmask := preprocessSeries_mask context_len horizon_len (pySliceLast fcontext_len ts) hc
  have hlen : (pySliceLast fcontext_len ts).length = min ts.length fcontext_len := by
    rw [pySliceLast, if_neg (by omega : ¬ fcontext_len = 0), List.length_drop]
    omega
  refine ⟨hlen, ?_, hmask.1, hmask.2.1, hmask.2.2⟩
  rw [pySliceLast, if_neg (by omega : ¬ fcontext_len = 0)]
  rw [List.length_drop]
  congr 1
  omega

/-- Witness for C7: a length-3 series with `forecast_context_len = 2`,
`context_len = 4`, `horizon_len = 2`. -/
theorem preprocess_truncation_and_mask_witness :
    (pySliceLast 2 [3, 4, 5]).length = min ([3, 4, 5] : List ℚ).length 2 ∧
    pySliceLast 2 [3, 4, 5]
      = ([3, 4, 5] : List ℚ).drop (([3, 4, 5] : List ℚ).length - (pySliceLast 2 [3, 4, 5]).length) ∧
    (preprocessSeries 4 2 (pySliceLast 2 [3, 4, 5])).2.length = 4 + 2 ∧
    (preprocessSeries 4 2 (pySliceLast 2 [3, 4, 5])).2.drop 4 = List.replicate 2 0 ∧
    ((pySliceLast 2 [3, 4, 5]).length < 4 →
      (preprocessSeries 4 2 (pySliceLast 2 [3, 4, 5])).1
        = List.replicate (4 - (pySliceLast 2 [3, 4, 5]).length) 0 ++ pySliceLast 2 [3, 4, 5] ∧
      ∀ i < 4 + 2,
        ((preprocessSeries 4 2 (pySliceLast 2 [3, 4, 5])).2.getD i 0 = 1
          ↔ i < 4 - (pySliceLast 2 [3, 4, 5]).length)) :=
  preprocess_truncation_and_mask 2 4 2 [3, 4, 5] (by decide) (by decide)

/-- Helper: the pinball integrand at `q = 1/2` is half the absolute error. -/
theorem pinball_elem_half (e : ℚ) :
    max ((1/2 - 1) * e) ((1/2 : ℚ) * e) = |e| / 2 := by
  rcases le_total e 0 with h | h
  · rw [abs_of_nonpos h, max_eq_left (by linarith)]
    ring
  · rw [abs_of_nonneg h, max_eq_right (by linarith)]
    ring

/-- Helper: the zipped pinball values at `q = 1/2` are the halved absolute
errors. -/
theorem zip_pinball_half (predictions targets : List ℚ) :
    List.zipWith (fun p t => max ((1/2 - 1) * (t - p)) ((1/2 : ℚ) * (t - p)))
        predictions targets
      = (List.zipWith (fun p t => |t - p|) predictions targets).map (fun x => x / 2) := by
  induction predictions generalizing targets with
  | nil => simp
  | cons a l ih =>
    cases targets with
    | nil => simp
    | cons b m =>
      simp only [List.zipWith_cons_cons, List.map_cons]
      rw [pinball_elem_half, ih]

/-- Helper: summing halved values halves the sum. -/
theorem sum_map_half (l : List ℚ) : (l.map (fun x => x / 2)).sum = l.sum / 2 := by
  induction l with
  | nil => simp
  | cons a t ih =>
    simp only [List.map_cons, List.sum_cons, ih]
    ring

/-- Helper: the mean of halved values is half the mean. -/
theorem listMean_map_half (l : List ℚ) :
    listMean (l.map (fun x => x / 2)) = listMean l / 2 := by
  rw [listMean, listMean, sum_map_half, List.length_map]
  ring

/-- C8: the pinball loss of `_quantile_loss` for a single quantile `q` is the
mean of `max((q-1)*error, q*error)` with `error = target - prediction`, and at
`q = 1/2` it equals half the mean absolute error. -/
theorem quantile_loss_half_is_half_mae (q : ℚ) (predictions targets : List ℚ) :
    timesfm_quantile_loss [q] [predictions] targets = pinballLoss q predictions targets ∧
    pinballLoss (1/2) predictions targets = meanAbsError predictions targets / 2 := by
  constructor
  · rw [timesfm_quantile_loss]
    simp [listMean]
  · rw [pinballLoss, meanAbsError, zip_pinball_half, listMean_map_half]

/-- C9 counterexample: a configuration with a known attention name and
`num_heads = 8` not divisible by `num_key_value_heads = 3` constructs
successfully (the assert compares `num_heads` with itself), whereas the claim
says construction must fail. -/
theorem decoder_layer_init_head_mismatch_constructs :
    timesFmDecoderLayer_init cfgC9
      = Except.ok { num_heads := 8, num_kv_heads := 8, num_queries_per_kv := 1 } ∧
    cfgC9.num_heads % cfgC9.num_key_value_heads ≠ 0 := by
  constructor
  · rfl
  · decide

/-- C9 amended: construction fails exactly when the attention implementation
name is unknown or `num_heads = 0` (a `ZeroDivisionError` in the assert's
modulo); the `num_key_value_heads` divisibility condition plays no role. -/
theorem decoder_layer_init_ok_iff (cfg : Config) :
    (∃ st, timesFmDecoderLayer_init cfg = Except.ok st) ↔
      (cfg.attn_implementation ∈ TIMESFM_ATTENTION_CLASSES ∧ cfg.num_heads ≠ 0) := by
  by_cases hmem : cfg.attn_implementation ∈ TIMESFM_ATTENTION_CLASSES
  · by_cases h0 : cfg.num_heads = 0
    · simp [timesFmDecoderLayer_init, timesFmAttention_init, hmem, h0]
    · simp [timesFmDecoderLayer_init, timesFmAttention_init, hmem, h0, Nat.mod_self]
  · simp [timesFmDecoderLayer_init, hmem]

/-- Witness for C9's amended claim: `cfgW` (name `eager`, `num_heads = 4`)
constructs successfully. -/
theorem decoder_layer_init_ok_iff_witness :
    ∃ st, timesFmDecoderLayer_init cfgW = Except.ok st :=
  (decoder_layer_init_ok_iff cfgW).mpr (by decide)

/-- C10: `TimesFmAttention` always sets its key/value head count equal to its
query head count (the config's `num_key_value_heads` is ignored), so
`num_queries_per_kv = 1`, the divisibility assert can never fail, and the
grouped-query key/value repetition branch is never executed. -/
theorem attention_always_full_mha (cfg : Config) :
    timesFmAttention_init cfg ≠ Except.error InitError.assertionError ∧
    (∀ k, timesFmAttention_init { cfg with num_key_value_heads := k }
      = timesFmAttention_init cfg) ∧
    (∀ st, timesFmAttention_init cfg = Except.ok st →
      st.num_kv_heads = st.num_heads ∧ st.num_queries_per_kv = 1 ∧
      ∀ kv : List (List ℚ), gqaExpandKV st kv = kv) := by
  refine ⟨?_, fun k => rfl, ?_⟩
  · by_cases h0 : cfg.num_heads = 0
    · simp [timesFmAttention_init, h0]
    · simp [timesFmAttention_init, h0, Nat.mod_self]
  · intro st hok
    by_cases h0 : cfg.num_heads = 0
    · simp [timesFmAttention_init, h0] at hok
    · have hinit : timesFmAttention_init cfg
          = Except.ok ⟨cfg.num_heads, cfg.num_heads, cfg.num_heads / cfg.num_heads⟩ := by
        rw [timesFmAttention_init]
        simp [h0, Nat.mod_self]
      rw [hinit] at hok
      obtain rfl := (Except.ok.injEq _ _).mp hok
      refine ⟨rfl, Nat.div_self (Nat.pos_of_ne_zero h0), ?_⟩
      intro kv
      rw [gqaExpandKV, if_neg (by simp)]

/-- Witness for C10 at `cfgW`. -/
theorem attention_always_full_mha_witness :
    timesFmAttention_init cfgW ≠ Except.error InitError.assertionError ∧
    stW.num_kv_heads = stW.num_heads ∧ stW.num_queries_per_kv = 1 ∧
    gqaExpandKV stW ([[1, 2], [3, 4]] : List (List ℚ)) = [[1, 2], [3, 4]] :=
  ⟨(attention_always_full_mha cfgW).1,
   ((attention_always_full_mha cfgW).2.2 stW (by rfl)).1,
   ((attention_always_full_mha cfgW).2.2 stW (by rfl)).2.1,
   ((attention_always_full_mha cfgW).2.2 stW (by rfl)).2.2 [[1, 2], [3, 4]]⟩

end TimesFm
